import Mathlib

/-!
Verification of the Bluff-Bar card game (src/game.cpp) against its
natural-language specification.

The C++ program is shallowly embedded: each relevant C++ function is
translated to an executable Lean definition over explicit state.
Players are `Player` records, the game state (`players`,
`currentPlayerIndex`, `surviveCount`, `lastPlayedByIndex`) is a
`GameState` record, and every call to the process-wide `rand()` source
is an explicit `Nat` argument.  C++ `int` indices that can be negative
(the `-1` sentinel of `getNextAlivePlayer` and `removeCardAt`'s bound
check) are `Int`; all other indices are `Nat`.
-/

namespace BluffBar

/-- A player, as in `Player<string>` of game.cpp: a name, a hand of cards
(cards are strings) and an alive flag. -/
structure Player where
  name : String
  hand : List String
  alive : Bool
deriving Repr, DecidableEq

/-- `Player::removeCardAt` (game.cpp:78-81): erase the card at `idx` when
`0 <= idx < hand.size()`, otherwise leave the hand unchanged (no error). -/
def removeCardAt (hand : List String) (idx : Int) : List String :=
  if 0 ≤ idx ∧ idx < (hand.length : Int) then hand.eraseIdx idx.toNat
  else hand

/-- `Game::playIsCorrect` (game.cpp:120-128): an empty play is incorrect;
otherwise the play is correct iff every card equals the focus card or the
wildcard "Magic". -/
def playIsCorrect (played : List String) (focus : String) : Bool :=
  if played.isEmpty then false
  else played.all (fun c => c == focus || c == "Magic")

/-- The alive-with-cards test used by `Game::getNextAlivePlayer`
(game.cpp:136): `players[idx].isAlive() && !players[idx].getHand().empty()`. -/
def aliveWithCards (p : Player) : Bool :=
  p.alive && !p.hand.isEmpty

/-- The candidate seat visited at loop iteration `i` (0-based here, the C++
loop counter is `i+1`) of `Game::getNextAlivePlayer`: `(start + i) % n`
with C++ `int` arithmetic; all uses have `start ≥ -1` so the operands of
`%` are non-negative and C++ `%` agrees with `Int.emod`. -/
def candidateIdx (n : Nat) (start : Int) (i : Nat) : Nat :=
  ((start + (i + 1)) % (n : Int)).toNat

/-- `Game::getNextAlivePlayer` (game.cpp:131-140): scan the `n` seats
`(start+1) % n, ..., (start+n) % n` in order and return the first that is
alive with a non-empty hand; `none` models the C++ return value `-1`. -/
def getNextAlivePlayer (ps : List Player) (start : Int) : Option Nat :=
  ((List.range ps.length).map (candidateIdx ps.length start)).find?
    (fun idx =>
      match ps[idx]? with
      | some p => aliveWithCards p
      | none => false)

/-- `Game::countAlivePlayers` (game.cpp:142-145). -/
def countAlivePlayers (ps : List Player) : Nat :=
  ps.countP (fun p => p.alive)

/-- `Game::countAliveWithCards` (game.cpp:147-150). -/
def countAliveWithCards (ps : List Player) : Nat :=
  ps.countP aliveWithCards

/-- `Game::findPlayerIndex` (game.cpp:172-177): index of the first player
with the given name, `none` for the C++ `-1`. -/
def findPlayerIndex (ps : List Player) (nm : String) : Option Nat :=
  (List.range ps.length).find?
    (fun i =>
      match ps[i]? with
      | some p => p.name == nm
      | none => false)

/-- Whole game state: the player list, the active index, the per-name
survive counters (`unordered_map<string,int>`, default 0 on first access,
game.cpp:109) and the per-seat record of the last hidden play
(game.cpp:112). -/
structure GameState where
  players : List Player
  currentPlayerIndex : Nat
  surviveCount : String → Nat
  lastPlayedByIndex : List (List String)

/-- Point update of the survive-counter map. -/
def setCount (m : String → Nat) (k : String) (v : Nat) : String → Nat :=
  fun x => if x = k then v else m x

/-- Apply `f` to the list element at position `i` (mutation through a
reference to `players[i]` in the C++). -/
def modifyAt (f : Player → Player) : List Player → Nat → List Player
  | [], _ => []
  | x :: xs, 0 => f x :: xs
  | x :: xs, Nat.succ n => x :: modifyAt f xs n

/-- Name of the player at seat `i` (the C++ reads it through a reference,
so the seat is always valid there; `""` is the out-of-range artifact). -/
def playerNameAt (ps : List Player) (i : Nat) : String :=
  match ps[i]? with
  | some p => p.name
  | none => ""

/-- The skip step of `Game::play` (game.cpp:294-299), taken when the active
player is dead or out of cards: advance to the next alive-with-cards seat,
or end the round (`none`) when there is none. -/
def skipStep (s : GameState) : Option GameState :=
  match getNextAlivePlayer s.players (s.currentPlayerIndex : Int) with
  | none => none
  | some nxt => some { s with currentPlayerIndex := nxt }

/-- The seat that decides whether to challenge after a play: both the human
turn (game.cpp:377) and the bot turn (game.cpp:413) use
`getNextAlivePlayer(currentPlayerIndex)` for it. -/
def challengeDeciderIdx (s : GameState) : Option Nat :=
  getNextAlivePlayer s.players (s.currentPlayerIndex : Int)

/-- Modelled from the spec's words for claim C7: "the first alive player
after the one who just played" — the same wrapping scan as
`getNextAlivePlayer` but testing only the alive flag, not hand emptiness. -/
def firstAliveAfter (ps : List Player) (start : Int) : Option Nat :=
  ((List.range ps.length).map (candidateIdx ps.length start)).find?
    (fun idx =>
      match ps[idx]? with
      | some p => p.alive
      | none => false)

/-- Elimination of a player: `setAlive(false)` through a reference. -/
def setDead (p : Player) : Player :=
  { p with alive := false }

/-- Hand of the player at seat `i` (`[]` is the out-of-range artifact; the
C++ always reads through a valid reference). -/
def handAt (ps : List Player) (i : Nat) : List String :=
  match ps[i]? with
  | some p => p.hand
  | none => []

/-- The pointer update at the end of both branches of
`Game::handleQuestioning` (game.cpp:215-220 and 241-246): look the
questioner up by name; if found, that index becomes the active index,
otherwise fall back to `getNextAlivePlayer(-1)`, or 0 if that also
fails. -/
def setQuestionerPointer (s : GameState) (qname : String) : GameState :=
  { s with currentPlayerIndex :=
      match findPlayerIndex s.players qname with
      | some i => i
      | none =>
        match getNextAlivePlayer s.players (-1) with
        | some fallback => fallback
        | none => 0 }

/-- `Game::handleQuestioning` (game.cpp:179-249).  `questionerIdx` and
`playedIdx` are the seats of the two reference parameters, `played` the
revealed cards, `r` the value drawn from `rand()` for the bomb.  The
incorrect-play branch (game.cpp:196-221) applies the bomb policy to the
player who played; the correct-play branch (game.cpp:223-247) applies the
same policy to the questioner.  Both branches then set the active index
from the questioner's name and return `true` (round over). -/
def handleQuestioning (s : GameState) (questionerIdx playedIdx : Nat)
    (played : List String) (focus : String) (r : Nat) : GameState × Bool :=
  let correctPlay := playIsCorrect played focus
  if !correctPlay then
    let nm := playerNameAt s.players playedIdx
    let s1 :=
      if 2 ≤ s.surviveCount nm then
        { s with players := modifyAt setDead s.players playedIdx,
                 surviveCount := setCount s.surviveCount nm 0 }
      else if r % 3 = 0 then
        { s with players := modifyAt setDead s.players playedIdx,
                 surviveCount := setCount s.surviveCount nm 0 }
      else
        { s with surviveCount :=
            setCount s.surviveCount nm (s.surviveCount nm + 1) }
    (setQuestionerPointer s1 (playerNameAt s.players questionerIdx), true)
  else
    let nm := playerNameAt s.players questionerIdx
    let s1 :=
      if 2 ≤ s.surviveCount nm then
        { s with players := modifyAt setDead s.players questionerIdx,
                 surviveCount := setCount s.surviveCount nm 0 }
      else if r % 3 = 0 then
        { s with players := modifyAt setDead s.players questionerIdx,
                 surviveCount := setCount s.surviveCount nm 0 }
      else
        { s with surviveCount :=
            setCount s.surviveCount nm (s.surviveCount nm + 1) }
    (setQuestionerPointer s1 (playerNameAt s.players questionerIdx), true)

/-- The at-fault party of a challenge resolution: the player who played
when the play is incorrect, otherwise the questioner. -/
def faultIdx (questionerIdx playedIdx : Nat) (played : List String)
    (focus : String) : Nat :=
  if playIsCorrect played focus then questionerIdx else playedIdx

/-- The bomb-risk policy applied to the at-fault seat, factored out of the
two identical blocks of `Game::handleQuestioning`. -/
def applyRisk (s : GameState) (subjectIdx : Nat) (r : Nat) : GameState :=
  if 2 ≤ s.surviveCount (playerNameAt s.players subjectIdx) then
    { s with players := modifyAt setDead s.players subjectIdx,
             surviveCount :=
               setCount s.surviveCount (playerNameAt s.players subjectIdx) 0 }
  else if r % 3 = 0 then
    { s with players := modifyAt setDead s.players subjectIdx,
             surviveCount :=
               setCount s.surviveCount (playerNameAt s.players subjectIdx) 0 }
  else
    { s with surviveCount :=
        (setCount s.surviveCount (playerNameAt s.players subjectIdx)
          (s.surviveCount (playerNameAt s.players subjectIdx) + 1)) }

/-- The guard of the forced-questioning block of `Game::play`
(game.cpp:449-472) as a predicate of the state after a play:
no challenge yet this round, exactly two alive players, a next
alive-with-cards seat exists (when it does not, the code instead ends the
round), and the player who just played has an empty hand. -/
def forcedChallengeFires (s : GameState) (anyQuestionAsked : Bool) : Bool :=
  !anyQuestionAsked && (countAlivePlayers s.players == 2) &&
  !(getNextAlivePlayer s.players (s.currentPlayerIndex : Int)).isNone &&
  (handAt s.players s.currentPlayerIndex).isEmpty

/-- The cards handed to the forced challenge (game.cpp:464-466): the last
recorded play of the player who just played, looked up by name, or `[]`
when the name lookup fails. -/
def forcedPlayedCards (s : GameState) : List String :=
  match findPlayerIndex s.players (playerNameAt s.players s.currentPlayerIndex) with
  | some prevIdx => s.lastPlayedByIndex.getD prevIdx []
  | none => []

/-- `Player::playCards` (game.cpp:84-91): pop up to `n` cards from the
back of the hand, in back-to-front order; returns (played, new hand). -/
def playCards (n : Nat) (hand : List String) : List String × List String :=
  match n, hand.getLast? with
  | 0, _ => ([], hand)
  | _, none => ([], hand)
  | Nat.succ m, some c =>
    let rec_result := playCards m hand.dropLast
    (c :: rec_result.1, rec_result.2)

/-- A bot's turn (game.cpp:401-408): the active player plays `n` cards
from the back of its hand, and the play is recorded in
`lastPlayedByIndex` at the index found by looking the player's name up. -/
def botPlayStep (s : GameState) (n : Nat) : GameState :=
  match s.players[s.currentPlayerIndex]? with
  | none => s
  | some p =>
    let newHand := (playCards n p.hand).2
    let ps' := modifyAt (fun q => { q with hand := newHand })
      s.players s.currentPlayerIndex
    match findPlayerIndex ps' (playerNameAt s.players s.currentPlayerIndex) with
    | some curIdx =>
      { s with players := ps',
               lastPlayedByIndex :=
                 s.lastPlayedByIndex.set curIdx (playCards n p.hand).1 }
    | none => { s with players := ps' }

/-- The human's card-removal block (game.cpp:359-366): the chosen
(already validated, distinct, 0-based) indices are sorted in descending
order; for each index in that order, the card at that position of the
LIVE hand (`hand` is a reference, so earlier removals are visible) is
appended to `played` and removed via `removeCardAt`; finally `played` is
reversed.  Returns (new hand, played). -/
def humanPlaySelected (hand : List String) (chosen : List Nat) :
    List String × List String :=
  (((chosen.insertionSort (fun a b => b ≤ a)).foldl
      (fun st (idx : Nat) => (removeCardAt st.1 (idx : Int),
        st.2 ++ [st.1.getD idx ""]))
      (hand, [])).1,
   ((chosen.insertionSort (fun a b => b ≤ a)).foldl
      (fun st (idx : Nat) => (removeCardAt st.1 (idx : Int),
        st.2 ++ [st.1.getD idx ""]))
      (hand, [])).2.reverse)

end BluffBar

namespace BluffBar

theorem handleQuestioning_eq (s : GameState) (questionerIdx playedIdx : Nat)
    (played : List String) (focus : String) (r : Nat) :
    handleQuestioning s questionerIdx playedIdx played focus r =
      (setQuestionerPointer
        (applyRisk s (faultIdx questionerIdx playedIdx played focus) r)
        (playerNameAt s.players questionerIdx), true) := by
  unfold handleQuestioning faultIdx applyRisk
  cases h : playIsCorrect played focus <;> simp [h]

theorem aliveWithCards_iff (p : Player) :
    aliveWithCards p = true ↔ p.alive = true ∧ p.hand ≠ [] := by
  simp [aliveWithCards, List.isEmpty_iff]

theorem find?_first {α : Type} (p : α → Bool) (l : List α) (x : α) (d : α)
    (h : l.find? p = some x) :
    ∃ i, i < l.length ∧ l.getD i d = x ∧ p x = true ∧
      ∀ j, j < i → p (l.getD j d) = false := by
  induction l with
  | nil => simp at h
  | cons a as ih =>
    by_cases hp : p a
    · rw [List.find?_cons_of_pos _ hp] at h
      injection h with h1
      subst h1
      exact ⟨0, by simp, by simp, hp, fun j hj => absurd hj (Nat.not_lt_zero j)⟩
    · rw [List.find?_cons_of_neg _ (by simpa using hp)] at h
      obtain ⟨i, hi, hget, hx, hbefore⟩ := ih h
      refine ⟨i + 1, by simpa using hi, by simpa using hget, hx, ?_⟩
      intro j hj
      cases j with
      | zero => simpa [List.getD] using hp
      | succ m =>
        have := hbefore m (by omega)
        simpa using this

theorem candidateIdx_lt (n : Nat) (start : Int) (i : Nat) (hn : 0 < n) :
    candidateIdx n start i < n := by
  have hN : (0 : Int) < (n : Int) := by exact_mod_cast hn
  unfold candidateIdx
  have h1 : (0 : Int) ≤ (start + ((i : Int) + 1)) % (n : Int) :=
    Int.emod_nonneg _ (by omega)
  have h2 : (start + ((i : Int) + 1)) % (n : Int) < (n : Int) :=
    Int.emod_lt_of_pos _ hN
  omega

theorem candidateIdx_surj (n : Nat) (start : Int) (j : Nat) (hj : j < n) :
    ∃ i, i < n ∧ candidateIdx n start i = j := by
  have hn : 0 < n := by omega
  have hN : (0 : Int) < (n : Int) := by exact_mod_cast hn
  set a : Int := (j : Int) - start - 1 with ha
  have hr0 : (0 : Int) ≤ a % (n : Int) := Int.emod_nonneg _ (by omega)
  have hrlt : a % (n : Int) < (n : Int) := Int.emod_lt_of_pos _ hN
  refine ⟨(a % (n : Int)).toNat, by omega, ?_⟩
  unfold candidateIdx
  have h1 : (((a % (n : Int)).toNat : Nat) : Int) = a % (n : Int) :=
    Int.toNat_of_nonneg hr0
  rw [h1]
  have h2 : start + (a % (n : Int) + 1) =
      (j : Int) + (n : Int) * (-(a / (n : Int))) := by
    rw [Int.emod_def, ha]
    ring
  rw [h2, Int.add_mul_emod_self_left,
    Int.emod_eq_of_lt (by omega) (by omega)]
  omega

theorem getNextAlivePlayer_sound (ps : List Player) (start : Int)
    (idx : Nat) (h : getNextAlivePlayer ps start = some idx) :
    ∃ p, ps[idx]? = some p ∧ aliveWithCards p = true := by
  unfold getNextAlivePlayer at h
  have hpred := List.find?_some h
  replace hpred : (match ps[idx]? with
    | some p => aliveWithCards p
    | none => false) = true := hpred
  cases hps : ps[idx]? with
  | none => rw [hps] at hpred; simp at hpred
  | some p => rw [hps] at hpred; exact ⟨p, rfl, hpred⟩

theorem getNextAlivePlayer_none_iff (ps : List Player) (start : Int) :
    getNextAlivePlayer ps start = none ↔
      ∀ (j : Nat) (p : Player), ps[j]? = some p → aliveWithCards p = false := by
  unfold getNextAlivePlayer
  rw [List.find?_eq_none]
  constructor
  · intro h j p hjp
    have hj : j < ps.length := by
      by_contra hc
      have hle : ps.length ≤ j := Nat.le_of_not_lt hc
      rw [List.getElem?_eq_none hle] at hjp
      exact Option.noConfusion hjp
    obtain ⟨i, hi, hci⟩ := candidateIdx_surj ps.length start j hj
    have hmem : j ∈ (List.range ps.length).map (candidateIdx ps.length start) :=
      List.mem_map.mpr ⟨i, List.mem_range.mpr hi, hci⟩
    have hnp := h j hmem
    replace hnp : ¬(match ps[j]? with
      | some p => aliveWithCards p
      | none => false) = true := hnp
    rw [hjp] at hnp
    cases haw : aliveWithCards p with
    | false => rfl
    | true => exact absurd haw hnp
  · intro h x hmem
    show ¬(match ps[x]? with
      | some p => aliveWithCards p
      | none => false) = true
    cases hps : ps[x]? with
    | none => simp
    | some p => simp [h x p hps]

/-- C4: turn advancement never selects a dead player or a player with an
empty hand: every index returned by `getNextAlivePlayer` refers to an
alive player with a non-empty hand; the lookup reports failure (`none`)
exactly when no such player exists, in which case the skip step ends the
round; and a successful skip lands on an alive player with cards. -/
theorem turnAdvance_spec (ps : List Player) (start : Int) (s : GameState) :
    (∀ idx, getNextAlivePlayer ps start = some idx →
      ∃ p, ps[idx]? = some p ∧ p.alive = true ∧ p.hand ≠ []) ∧
    (getNextAlivePlayer ps start = none ↔
      ∀ (j : Nat) (p : Player), ps[j]? = some p → ¬(p.alive = true ∧ p.hand ≠ [])) ∧
    (skipStep s = none ↔
      getNextAlivePlayer s.players (s.currentPlayerIndex : Int) = none) ∧
    (∀ s', skipStep s = some s' →
      ∃ p, s'.players[s'.currentPlayerIndex]? = some p ∧
        p.alive = true ∧ p.hand ≠ []) := by
  refine ⟨?_, ?_, ?_, ?_⟩
  · intro idx h
    obtain ⟨p, hp, haw⟩ := getNextAlivePlayer_sound ps start idx h
    exact ⟨p, hp, (aliveWithCards_iff p).mp haw⟩
  · rw [getNextAlivePlayer_none_iff]
    constructor
    · intro h j p hjp hc
      have := h j p hjp
      rw [(aliveWithCards_iff p).mpr hc] at this
      exact Bool.noConfusion this
    · intro h j p hjp
      cases haw : aliveWithCards p with
      | false => rfl
      | true => exact absurd ((aliveWithCards_iff p).mp haw) (h j p hjp)
  · unfold skipStep
    cases hg : getNextAlivePlayer s.players (s.currentPlayerIndex : Int) <;> simp
  · intro s' h
    unfold skipStep at h
    cases hg : getNextAlivePlayer s.players (s.currentPlayerIndex : Int) with
    | none => rw [hg] at h; exact Option.noConfusion h
    | some nxt =>
      rw [hg] at h
      injection h with h1
      obtain ⟨p, hp, haw⟩ := getNextAlivePlayer_sound _ _ _ hg
      subst h1
      exact ⟨p, hp, (aliveWithCards_iff p).mp haw⟩

/-- Witness for C4 at a concrete two-seat state: seat 0 is dead, seat 1 is
alive with a card, and the lookup starting after seat 0 returns seat 1. -/
theorem turnAdvance_spec_witness :
    ∃ p, ([⟨"Human", [], false⟩, ⟨"Bot1", ["Sun"], true⟩] :
        List Player)[1]? = some p ∧ p.alive = true ∧ p.hand ≠ [] :=
  (turnAdvance_spec [⟨"Human", [], false⟩, ⟨"Bot1", ["Sun"], true⟩] 0
    ⟨[], 0, fun _ => 0, []⟩).1 1 (by decide)

theorem range_map_getD (n : Nat) (f : Nat → Nat) (k : Nat) (hk : k < n) :
    ((List.range n).map f).getD k 0 = f k := by
  simp [List.getD_eq_getElem?_getD, List.getElem?_map, List.getElem?_range hk]

/-- C7 (amended): after every play, the party that decides whether to
challenge is the first alive player WITH A NON-EMPTY HAND after the one
who just played, in wrapping seat order: the decider's seat is a candidate
seat `candidateIdx _ _ i`, it holds an alive player with cards, and every
earlier candidate seat holds no alive player with cards. -/
theorem challengeDecider_first (s : GameState) (idx : Nat)
    (h : challengeDeciderIdx s = some idx) :
    ∃ i, i < s.players.length ∧
      candidateIdx s.players.length (s.currentPlayerIndex : Int) i = idx ∧
      (∃ p, s.players[idx]? = some p ∧ p.alive = true ∧ p.hand ≠ []) ∧
      ∀ j, j < i → ∀ (q : Player),
        s.players[candidateIdx s.players.length
          (s.currentPlayerIndex : Int) j]? = some q →
        ¬(q.alive = true ∧ q.hand ≠ []) := by
  unfold challengeDeciderIdx getNextAlivePlayer at h
  obtain ⟨i, hi, hget, hx, hbefore⟩ := find?_first _ _ idx 0 h
  have hlen : ((List.range s.players.length).map
      (candidateIdx s.players.length (s.currentPlayerIndex : Int))).length
      = s.players.length := by simp
  rw [hlen] at hi
  rw [range_map_getD _ _ i hi] at hget
  replace hx : (match s.players[idx]? with
    | some p => aliveWithCards p
    | none => false) = true := hx
  refine ⟨i, hi, hget, ?_, ?_⟩
  · cases hps : s.players[idx]? with
    | none => rw [hps] at hx; simp at hx
    | some p =>
      rw [hps] at hx
      exact ⟨p, rfl, (aliveWithCards_iff p).mp hx⟩
  · intro j hj q hq
    have hjn : j < s.players.length := by omega
    have hb := hbefore j hj
    rw [range_map_getD _ _ j hjn] at hb
    replace hb : (match s.players[candidateIdx s.players.length
        (s.currentPlayerIndex : Int) j]? with
      | some p => aliveWithCards p
      | none => false) = false := hb
    rw [hq] at hb
    replace hb : aliveWithCards q = false := hb
    intro hc
    rw [(aliveWithCards_iff q).mpr hc] at hb
    exact Bool.noConfusion hb

/-- Witness for C7's amended theorem at a concrete state: seat 0 just
played, seat 1 is alive but empty-handed, so the decider is seat 2. -/
theorem challengeDecider_first_witness :
    ∃ i, i < (GameState.mk [⟨"Human", ["Sun"], true⟩, ⟨"Bot1", [], true⟩,
        ⟨"Bot2", ["Star"], true⟩] 0 (fun _ => 0) []).players.length ∧
      candidateIdx (GameState.mk [⟨"Human", ["Sun"], true⟩,
        ⟨"Bot1", [], true⟩, ⟨"Bot2", ["Star"], true⟩] 0
        (fun _ => 0) []).players.length 0 i = 2 ∧
      (∃ p, (GameState.mk [⟨"Human", ["Sun"], true⟩, ⟨"Bot1", [], true⟩,
        ⟨"Bot2", ["Star"], true⟩] 0 (fun _ => 0) []).players[(2 : Nat)]? =
          some p ∧ p.alive = true ∧ p.hand ≠ []) ∧
      ∀ j, j < i → ∀ (q : Player),
        (GameState.mk [⟨"Human", ["Sun"], true⟩, ⟨"Bot1", [], true⟩,
          ⟨"Bot2", ["Star"], true⟩] 0 (fun _ => 0) []).players[
            candidateIdx (GameState.mk [⟨"Human", ["Sun"], true⟩,
              ⟨"Bot1", [], true⟩, ⟨"Bot2", ["Star"], true⟩] 0
              (fun _ => 0) []).players.length 0 j]? = some q →
        ¬(q.alive = true ∧ q.hand ≠ []) :=
  challengeDecider_first (GameState.mk [⟨"Human", ["Sun"], true⟩,
    ⟨"Bot1", [], true⟩, ⟨"Bot2", ["Star"], true⟩] 0 (fun _ => 0) []) 2
    (by decide)

/-- Counterexample for C7 as stated: in the same state the first alive
player after seat 0 is seat 1 (alive, empty hand), but the code's decider
is seat 2 — the decider is NOT the first alive player after the player
who just played. -/
theorem challengeDecider_counterexample :
    challengeDeciderIdx (GameState.mk [⟨"Human", ["Sun"], true⟩,
      ⟨"Bot1", [], true⟩, ⟨"Bot2", ["Star"], true⟩] 0 (fun _ => 0) [])
      = some 2 ∧
    firstAliveAfter [⟨"Human", ["Sun"], true⟩, ⟨"Bot1", [], true⟩,
      ⟨"Bot2", ["Star"], true⟩] 0 = some 1 ∧
    challengeDeciderIdx (GameState.mk [⟨"Human", ["Sun"], true⟩,
      ⟨"Bot1", [], true⟩, ⟨"Bot2", ["Star"], true⟩] 0 (fun _ => 0) [])
      ≠ firstAliveAfter [⟨"Human", ["Sun"], true⟩, ⟨"Bot1", [], true⟩,
        ⟨"Bot2", ["Star"], true⟩] 0 := by
  refine ⟨by decide, by decide, by decide⟩

theorem modifyAt_length (f : Player → Player) (l : List Player) (i : Nat) :
    (modifyAt f l i).length = l.length := by
  induction l generalizing i with
  | nil => rfl
  | cons x xs ih =>
    cases i with
    | zero => rfl
    | succ n => simp [modifyAt, ih]

theorem modifyAt_getElem?_ne (f : Player → Player) (l : List Player)
    (i j : Nat) (h : j ≠ i) : (modifyAt f l i)[j]? = l[j]? := by
  induction l generalizing i j with
  | nil => rfl
  | cons x xs ih =>
    cases i with
    | zero =>
      cases j with
      | zero => exact absurd rfl h
      | succ m => simp [modifyAt]
    | succ n =>
      cases j with
      | zero => simp [modifyAt]
      | succ m =>
        simp only [modifyAt, List.getElem?_cons_succ]
        exact ih n m (fun hh => h (by rw [hh]))

theorem modifyAt_getElem?_eq (f : Player → Player) (l : List Player)
    (i : Nat) : (modifyAt f l i)[i]? = (l[i]?).map f := by
  induction l generalizing i with
  | nil => rfl
  | cons x xs ih =>
    cases i with
    | zero => simp [modifyAt]
    | succ n => simpa [modifyAt] using ih n

theorem modifyAt_setDead_hand (l : List Player) (i j : Nat) :
    ((modifyAt setDead l i)[j]?).map Player.hand = (l[j]?).map Player.hand := by
  by_cases h : j = i
  · subst h
    rw [modifyAt_getElem?_eq]
    cases l[j]? <;> rfl
  · rw [modifyAt_getElem?_ne _ _ _ _ h]

theorem modifyAt_setDead_name (l : List Player) (i j : Nat) :
    ((modifyAt setDead l i)[j]?).map Player.name = (l[j]?).map Player.name := by
  by_cases h : j = i
  · subst h
    rw [modifyAt_getElem?_eq]
    cases l[j]? <;> rfl
  · rw [modifyAt_getElem?_ne _ _ _ _ h]

theorem modifyAt_setDead_alive_ne (l : List Player) (i j : Nat) (h : j ≠ i) :
    ((modifyAt setDead l i)[j]?).map Player.alive = (l[j]?).map Player.alive := by
  rw [modifyAt_getElem?_ne _ _ _ _ h]

theorem modifyAt_map_name (l : List Player) (i : Nat) :
    (modifyAt setDead l i).map Player.name = l.map Player.name := by
  induction l generalizing i with
  | nil => rfl
  | cons x xs ih =>
    cases i with
    | zero => simp [modifyAt, setDead]
    | succ n => simp [modifyAt, ih]

theorem applyRisk_map_name (s : GameState) (i : Nat) (r : Nat) :
    (applyRisk s i r).players.map Player.name = s.players.map Player.name := by
  unfold applyRisk
  split_ifs <;> simp [modifyAt_map_name]

theorem applyRisk_lastPlayed (s : GameState) (i : Nat) (r : Nat) :
    (applyRisk s i r).lastPlayedByIndex = s.lastPlayedByIndex := by
  unfold applyRisk
  split_ifs <;> rfl

theorem find?_range_eq_some (p : Nat → Bool) (n q : Nat) (hq : q < n)
    (hpq : p q = true) (hmin : ∀ j, j < q → p j = false) :
    (List.range n).find? p = some q := by
  induction n with
  | zero => omega
  | succ m ih =>
    rw [List.range_succ, List.find?_append]
    by_cases hqm : q < m
    · rw [ih hqm]; rfl
    · have hqe : q = m := by omega
      subst hqe
      have hnone : (List.range q).find? p = none := by
        rw [List.find?_eq_none]
        intro x hx
        simp [hmin x (List.mem_range.mp hx)]
      rw [hnone]
      rw [List.find?_cons_of_pos _ hpq]
      rfl

theorem findPlayerIndex_self (ps : List Player) (q : Nat)
    (hq : q < ps.length) (hnodup : (ps.map Player.name).Nodup) :
    findPlayerIndex ps (playerNameAt ps q) = some q := by
  obtain ⟨pq, hpq⟩ : ∃ pq, ps[q]? = some pq := ⟨_, List.getElem?_eq_getElem hq⟩
  unfold findPlayerIndex
  apply find?_range_eq_some _ _ _ hq
  · show (match ps[q]? with
      | some p => p.name == playerNameAt ps q
      | none => false) = true
    rw [hpq]
    show (pq.name == playerNameAt ps q) = true
    unfold playerNameAt
    rw [hpq]
    simp
  · intro j hj
    obtain ⟨pj, hpj⟩ : ∃ pj, ps[j]? = some pj :=
      ⟨_, List.getElem?_eq_getElem (by omega)⟩
    show (match ps[j]? with
      | some p => p.name == playerNameAt ps q
      | none => false) = false
    rw [hpj]
    show (pj.name == playerNameAt ps q) = false
    unfold playerNameAt
    rw [hpq]
    rw [beq_eq_false_iff_ne]
    intro hc
    have hmap : (ps.map Player.name)[j]? = (ps.map Player.name)[q]? := by
      simp [List.getElem?_map, hpj, hpq, hc]
    have := List.getElem?_inj (by simpa using (by omega : j < ps.length))
      hnodup hmap
    omega

theorem findPlayerIndex_congr (ps ps' : List Player) (nm : String)
    (h : ps'.map Player.name = ps.map Player.name) :
    findPlayerIndex ps' nm = findPlayerIndex ps nm := by
  unfold findPlayerIndex
  have hlen : ps'.length = ps.length := by
    have h2 := congrArg List.length h
    simpa using h2
  rw [hlen]
  congr 1
  funext i
  have h1 : (ps'[i]?).map Player.name = (ps[i]?).map Player.name := by
    rw [← List.getElem?_map, ← List.getElem?_map, h]
  cases ho' : ps'[i]? with
  | none =>
    cases ho : ps[i]? with
    | none => rfl
    | some p => rw [ho', ho] at h1; simp at h1
  | some p' =>
    cases ho : ps[i]? with
    | none => rw [ho', ho] at h1; simp at h1
    | some p =>
      rw [ho', ho] at h1
      simp at h1
      simp [h1]

/-- C2: the survive counter stays in {0,1,2} across challenge
resolutions; when the at-fault party already has 2 survivals, the bomb
kills deterministically (the statement holds for EVERY draw `r`) and the
counter resets to 0; a random-draw elimination (`r % 3 = 0`) also resets
the counter to 0; and a survived risk increments the counter by exactly
1 while leaving the at-fault player's record unchanged. -/
theorem surviveCounter_spec (s : GameState) (qIdx pIdx : Nat)
    (played : List String) (focus : String) (r : Nat) :
    ((∀ nm, s.surviveCount nm ≤ 2) →
      ∀ nm, (handleQuestioning s qIdx pIdx played focus r).1.surviveCount nm ≤ 2) ∧
    (2 ≤ s.surviveCount (playerNameAt s.players (faultIdx qIdx pIdx played focus)) →
      (handleQuestioning s qIdx pIdx played focus r).1.surviveCount
          (playerNameAt s.players (faultIdx qIdx pIdx played focus)) = 0 ∧
      ∀ p, s.players[faultIdx qIdx pIdx played focus]? = some p →
        (handleQuestioning s qIdx pIdx played focus r).1.players[
          faultIdx qIdx pIdx played focus]? = some { p with alive := false }) ∧
    (s.surviveCount (playerNameAt s.players (faultIdx qIdx pIdx played focus)) < 2 →
      r % 3 = 0 →
      (handleQuestioning s qIdx pIdx played focus r).1.surviveCount
          (playerNameAt s.players (faultIdx qIdx pIdx played focus)) = 0 ∧
      ∀ p, s.players[faultIdx qIdx pIdx played focus]? = some p →
        (handleQuestioning s qIdx pIdx played focus r).1.players[
          faultIdx qIdx pIdx played focus]? = some { p with alive := false }) ∧
    (s.surviveCount (playerNameAt s.players (faultIdx qIdx pIdx played focus)) < 2 →
      r % 3 ≠ 0 →
      (handleQuestioning s qIdx pIdx played focus r).1.surviveCount
          (playerNameAt s.players (faultIdx qIdx pIdx played focus)) =
        s.surviveCount (playerNameAt s.players (faultIdx qIdx pIdx played focus)) + 1 ∧
      ∀ p, s.players[faultIdx qIdx pIdx played focus]? = some p →
        (handleQuestioning s qIdx pIdx played focus r).1.players[
          faultIdx qIdx pIdx played focus]? = some p) := by
  rw [handleQuestioning_eq]
  dsimp only [setQuestionerPointer]
  unfold applyRisk
  split_ifs with hc1 hc2
  · refine ⟨?_, ?_, ?_, ?_⟩
    · intro h nm
      dsimp only [setCount]
      split
      · omega
      · exact h nm
    · intro _
      refine ⟨by simp [setCount], ?_⟩
      intro p hp
      rw [modifyAt_getElem?_eq, hp]
      rfl
    · intro hlt
      omega
    · intro hlt
      omega
  · refine ⟨?_, ?_, ?_, ?_⟩
    · intro h nm
      dsimp only [setCount]
      split
      · omega
      · exact h nm
    · intro hge
      omega
    · intro _ _
      refine ⟨by simp [setCount], ?_⟩
      intro p hp
      rw [modifyAt_getElem?_eq, hp]
      rfl
    · intro _ hr
      exact absurd hc2 hr
  · refine ⟨?_, ?_, ?_, ?_⟩
    · intro h nm
      dsimp only [setCount]
      split
      · omega
      · exact h nm
    · intro hge
      omega
    · intro _ hr
      exact absurd hr hc2
    · intro _ _
      refine ⟨by simp [setCount], ?_⟩
      intro p hp
      exact hp

/-- Witness for C2 at a concrete state: the at-fault player ("Human", who
played a wrong card) already has 2 survivals, so the bomb kills him even
though the draw `r = 5` has `r % 3 ≠ 0`, and his counter resets to 0. -/
theorem surviveCounter_spec_witness :
    (handleQuestioning (GameState.mk [Player.mk "Human" [] true,
        Player.mk "Bot1" ["Sun"] true] 0 (fun _ => 2) []) 1 0 ["Sun"] "Star"
        5).1.surviveCount
      (playerNameAt [Player.mk "Human" [] true, Player.mk "Bot1" ["Sun"] true]
        (faultIdx 1 0 ["Sun"] "Star")) = 0 ∧
    (handleQuestioning (GameState.mk [Player.mk "Human" [] true,
        Player.mk "Bot1" ["Sun"] true] 0 (fun _ => 2) []) 1 0 ["Sun"] "Star"
        5).1.players[faultIdx 1 0 ["Sun"] "Star"]? =
      some (Player.mk "Human" [] false) := by
  have h := (surviveCounter_spec (GameState.mk [Player.mk "Human" [] true,
    Player.mk "Bot1" ["Sun"] true] 0 (fun _ => 2) []) 1 0 ["Sun"] "Star" 5).2.1
    (by decide)
  refine ⟨h.1, ?_⟩
  have h2 := h.2 (Player.mk "Human" [] true) (by decide)
  exact h2

/-- C5: challenge resolution always returns the round-ended signal `true`
for every input play, focus card and draw, in both outcome branches; the
new active index is the questioner's seat found by name lookup in the
post-resolution player list, with the fallback (next alive-with-cards
player after position -1, else 0) used only when the lookup fails; and
when player names are distinct and the questioner seat valid, the lookup
succeeds and the active index is exactly the questioner's seat. -/
theorem handleQuestioning_pointer_spec (s : GameState) (qIdx pIdx : Nat)
    (played : List String) (focus : String) (r : Nat) :
    (handleQuestioning s qIdx pIdx played focus r).2 = true ∧
    (handleQuestioning s qIdx pIdx played focus r).1.currentPlayerIndex =
      (match findPlayerIndex
          (applyRisk s (faultIdx qIdx pIdx played focus) r).players
          (playerNameAt s.players qIdx) with
       | some i => i
       | none =>
         match getNextAlivePlayer
             (applyRisk s (faultIdx qIdx pIdx played focus) r).players (-1) with
         | some fallback => fallback
         | none => 0) ∧
    ((s.players.map Player.name).Nodup → qIdx < s.players.length →
      (handleQuestioning s qIdx pIdx played focus r).1.currentPlayerIndex =
        qIdx) := by
  refine ⟨?_, ?_, ?_⟩
  · rw [handleQuestioning_eq]
  · rw [handleQuestioning_eq]
    rfl
  · intro hnodup hq
    rw [handleQuestioning_eq]
    dsimp only [setQuestionerPointer]
    have hnames : (applyRisk s (faultIdx qIdx pIdx played focus) r).players.map
        Player.name = s.players.map Player.name :=
      applyRisk_map_name s (faultIdx qIdx pIdx played focus) r
    rw [findPlayerIndex_congr s.players
      (applyRisk s (faultIdx qIdx pIdx played focus) r).players
      (playerNameAt s.players qIdx) hnames]
    rw [findPlayerIndex_self s.players qIdx hq hnodup]

/-- Witness for C5 at a concrete state with distinct names: after Bot1
(seat 1) questions the Human's wrong play, the active index is seat 1. -/
theorem handleQuestioning_pointer_spec_witness :
    (handleQuestioning (GameState.mk [Player.mk "Human" ["Sun"] true,
        Player.mk "Bot1" ["Moon"] true] 0 (fun _ => 0) []) 1 0 ["Sun"]
        "Star" 1).1.currentPlayerIndex = 1 :=
  (handleQuestioning_pointer_spec (GameState.mk [Player.mk "Human" ["Sun"] true,
    Player.mk "Bot1" ["Moon"] true] 0 (fun _ => 0) []) 1 0 ["Sun"] "Star" 1).2.2
    (by decide) (by decide)

/-- C9 (frame): one challenge resolution changes the alive flag of at most
the at-fault seat and the survive counter of at most the at-fault name,
and changes no hand, no player name and no recorded last play. -/
theorem handleQuestioning_frame (s : GameState) (qIdx pIdx : Nat)
    (played : List String) (focus : String) (r : Nat) :
    (handleQuestioning s qIdx pIdx played focus r).1.lastPlayedByIndex =
      s.lastPlayedByIndex ∧
    (∀ (j : Nat),
      ((handleQuestioning s qIdx pIdx played focus r).1.players[j]?).map
        Player.hand = (s.players[j]?).map Player.hand) ∧
    (∀ (j : Nat),
      ((handleQuestioning s qIdx pIdx played focus r).1.players[j]?).map
        Player.name = (s.players[j]?).map Player.name) ∧
    (∀ (j : Nat), j ≠ faultIdx qIdx pIdx played focus →
      ((handleQuestioning s qIdx pIdx played focus r).1.players[j]?).map
        Player.alive = (s.players[j]?).map Player.alive) ∧
    (∀ nm, nm ≠ playerNameAt s.players (faultIdx qIdx pIdx played focus) →
      (handleQuestioning s qIdx pIdx played focus r).1.surviveCount nm =
        s.surviveCount nm) := by
  rw [handleQuestioning_eq]
  dsimp only [setQuestionerPointer]
  unfold applyRisk
  split_ifs with hc1 hc2
  · exact ⟨rfl, fun j => modifyAt_setDead_hand _ _ j,
      fun j => modifyAt_setDead_name _ _ j,
      fun j hj => modifyAt_setDead_alive_ne _ _ j hj,
      fun nm hnm => by simp [setCount, hnm]⟩
  · exact ⟨rfl, fun j => modifyAt_setDead_hand _ _ j,
      fun j => modifyAt_setDead_name _ _ j,
      fun j hj => modifyAt_setDead_alive_ne _ _ j hj,
      fun nm hnm => by simp [setCount, hnm]⟩
  · exact ⟨rfl, fun j => rfl, fun j => rfl, fun j hj => rfl,
      fun nm hnm => by simp [setCount, hnm]⟩

/-- Witness for C9 at a concrete state: resolving a wrong play by the
Human (seat 0, the at-fault party) leaves Bot1's alive flag and survive
counter unchanged. -/
theorem handleQuestioning_frame_witness :
    ((handleQuestioning (GameState.mk [Player.mk "Human" ["Sun"] true,
        Player.mk "Bot1" ["Moon"] true] 0 (fun _ => 0) [["Sun"]]) 1 0 ["Sun"]
        "Star" 0).1.players[(1 : Nat)]?).map Player.alive =
      (([Player.mk "Human" ["Sun"] true,
        Player.mk "Bot1" ["Moon"] true] : List Player)[(1 : Nat)]?).map
        Player.alive ∧
    (handleQuestioning (GameState.mk [Player.mk "Human" ["Sun"] true,
        Player.mk "Bot1" ["Moon"] true] 0 (fun _ => 0) [["Sun"]]) 1 0 ["Sun"]
        "Star" 0).1.surviveCount "Bot1" = 0 := by
  have h := handleQuestioning_frame (GameState.mk [Player.mk "Human" ["Sun"] true,
    Player.mk "Bot1" ["Moon"] true] 0 (fun _ => 0) [["Sun"]]) 1 0 ["Sun"]
    "Star" 0
  refine ⟨h.2.2.2.1 1 (by decide), ?_⟩
  have h2 := h.2.2.2.2 "Bot1" (by decide)
  simpa using h2

/-- C3: the forced-challenge step fires exactly when no challenge has
occurred yet this round, exactly 2 players are alive, and the player who
just played has an empty hand.  The hypothesis — some alive player still
holds cards — always holds where the block runs (game.cpp:449): the
iteration started with at least two alive-with-cards players and only the
current player's hand shrank since, so the required
`getNextAlivePlayer != -1` conjunct of the code is implied. -/
theorem forcedChallenge_iff (s : GameState) (q : Bool)
    (hexists : ∃ (j : Nat) (p : Player), s.players[j]? = some p ∧
      p.alive = true ∧ p.hand ≠ []) :
    forcedChallengeFires s q = true ↔
      (q = false ∧ countAlivePlayers s.players = 2 ∧
        handAt s.players s.currentPlayerIndex = []) := by
  unfold forcedChallengeFires
  constructor
  · intro h
    simp only [Bool.and_eq_true] at h
    obtain ⟨⟨⟨h1, h2⟩, h3⟩, h4⟩ := h
    refine ⟨by simpa using h1, by rwa [beq_iff_eq] at h2, ?_⟩
    exact List.isEmpty_iff.mp h4
  · rintro ⟨hq, h2, h4⟩
    subst hq
    obtain ⟨j, p, hjp, ha, hh⟩ := hexists
    have hne : getNextAlivePlayer s.players (s.currentPlayerIndex : Int) ≠
        none := by
      intro hg
      have hfalse := (getNextAlivePlayer_none_iff s.players
        (s.currentPlayerIndex : Int)).mp hg j p hjp
      rw [(aliveWithCards_iff p).mpr ⟨ha, hh⟩] at hfalse
      exact Bool.noConfusion hfalse
    simp only [Bool.and_eq_true]
    refine ⟨⟨⟨by simp, by simp [h2]⟩, ?_⟩, by simp [h4]⟩
    cases hg : getNextAlivePlayer s.players (s.currentPlayerIndex : Int) with
    | none => exact absurd hg hne
    | some v => simp

/-- Witness for C3 at a concrete state: two alive players, the current
player (seat 2) just emptied its hand, no challenge yet — the rule
fires. -/
theorem forcedChallenge_iff_witness :
    forcedChallengeFires (GameState.mk [Player.mk "Human" [] false,
      Player.mk "Bot1" [] false, Player.mk "Bot2" [] true,
      Player.mk "Bot3" ["Sun", "Sun"] true] 2 (fun _ => 0)
      [[], [], ["Star"], []]) false = true :=
  (forcedChallenge_iff (GameState.mk [Player.mk "Human" [] false,
    Player.mk "Bot1" [] false, Player.mk "Bot2" [] true,
    Player.mk "Bot3" ["Sun", "Sun"] true] 2 (fun _ => 0)
    [[], [], ["Star"], []]) false
    ⟨3, Player.mk "Bot3" ["Sun", "Sun"] true, by decide, rfl, by decide⟩).mpr
    ⟨rfl, by decide, by decide⟩

/-- Counterexample for C6: a reachable state where the forced challenge
fires but the challenged player's last recorded play is CORRECT, so the
at-fault party is the forced challenger (seat 3), not the challenged
player (seat 2).  The state arises from a bot turn: with two alive
players left, Bot2 (seat 2) plays its last card "Star" under focus card
"Star"; its recorded play `["Star"]` satisfies the correctness predicate,
and resolving the forced challenge (draw `r = 0`) bombs the challenger
Bot3 while Bot2 stays alive. -/
theorem forcedChallenge_counterexample :
    (botPlayStep (GameState.mk [Player.mk "Human" [] false,
      Player.mk "Bot1" [] false, Player.mk "Bot2" ["Star"] true,
      Player.mk "Bot3" ["Sun", "Sun"] true] 2 (fun _ => 0)
      [[], [], [], []]) 1).players =
      [Player.mk "Human" [] false, Player.mk "Bot1" [] false,
        Player.mk "Bot2" [] true, Player.mk "Bot3" ["Sun", "Sun"] true] ∧
    (botPlayStep (GameState.mk [Player.mk "Human" [] false,
      Player.mk "Bot1" [] false, Player.mk "Bot2" ["Star"] true,
      Player.mk "Bot3" ["Sun", "Sun"] true] 2 (fun _ => 0)
      [[], [], [], []]) 1).lastPlayedByIndex = [[], [], ["Star"], []] ∧
    forcedChallengeFires (GameState.mk [Player.mk "Human" [] false,
      Player.mk "Bot1" [] false, Player.mk "Bot2" [] true,
      Player.mk "Bot3" ["Sun", "Sun"] true] 2 (fun _ => 0)
      [[], [], ["Star"], []]) false = true ∧
    playIsCorrect (forcedPlayedCards (GameState.mk [Player.mk "Human" [] false,
      Player.mk "Bot1" [] false, Player.mk "Bot2" [] true,
      Player.mk "Bot3" ["Sun", "Sun"] true] 2 (fun _ => 0)
      [[], [], ["Star"], []])) "Star" = true ∧
    faultIdx 3 2 (forcedPlayedCards (GameState.mk [Player.mk "Human" [] false,
      Player.mk "Bot1" [] false, Player.mk "Bot2" [] true,
      Player.mk "Bot3" ["Sun", "Sun"] true] 2 (fun _ => 0)
      [[], [], ["Star"], []])) "Star" = 3 ∧
    ((handleQuestioning (GameState.mk [Player.mk "Human" [] false,
      Player.mk "Bot1" [] false, Player.mk "Bot2" [] true,
      Player.mk "Bot3" ["Sun", "Sun"] true] 2 (fun _ => 0)
      [[], [], ["Star"], []]) 3 2
      (forcedPlayedCards (GameState.mk [Player.mk "Human" [] false,
        Player.mk "Bot1" [] false, Player.mk "Bot2" [] true,
        Player.mk "Bot3" ["Sun", "Sun"] true] 2 (fun _ => 0)
        [[], [], ["Star"], []])) "Star" 0).1.players[(3 : Nat)]?).map
      Player.alive = some false ∧
    ((handleQuestioning (GameState.mk [Player.mk "Human" [] false,
      Player.mk "Bot1" [] false, Player.mk "Bot2" [] true,
      Player.mk "Bot3" ["Sun", "Sun"] true] 2 (fun _ => 0)
      [[], [], ["Star"], []]) 3 2
      (forcedPlayedCards (GameState.mk [Player.mk "Human" [] false,
        Player.mk "Bot1" [] false, Player.mk "Bot2" [] true,
        Player.mk "Bot3" ["Sun", "Sun"] true] 2 (fun _ => 0)
        [[], [], ["Star"], []])) "Star" 0).1.players[(2 : Nat)]?).map
      Player.alive = some true := by
  refine ⟨by decide, by decide, by decide, by decide, by decide, ?_, ?_⟩ <;>
    decide

/-- C6 (amended): when the forced challenge fires, the challenged
player's recorded play need not be incorrect; the resolution still always
ends the round, and the at-fault party is the challenged player if and
only if the correctness predicate rejects the recorded play — in
particular it is the challenged player whenever no play is recorded. -/
theorem forcedChallenge_fault_iff (s : GameState) (qIdx : Nat)
    (focus : String) (r : Nat)
    (_hfire : forcedChallengeFires s false = true)
    (hq : qIdx ≠ s.currentPlayerIndex) :
    (handleQuestioning s qIdx s.currentPlayerIndex (forcedPlayedCards s)
      focus r).2 = true ∧
    (faultIdx qIdx s.currentPlayerIndex (forcedPlayedCards s) focus =
        s.currentPlayerIndex ↔
      playIsCorrect (forcedPlayedCards s) focus = false) ∧
    (forcedPlayedCards s = [] →
      faultIdx qIdx s.currentPlayerIndex (forcedPlayedCards s) focus =
        s.currentPlayerIndex) := by
  refine ⟨by rw [handleQuestioning_eq], ?_, ?_⟩
  · unfold faultIdx
    cases hpc : playIsCorrect (forcedPlayedCards s) focus with
    | false => simp
    | true => simp [hq]
  · intro h
    rw [h]
    unfold faultIdx
    simp [playIsCorrect]

/-- Witness for C6's amended theorem at the counterexample state: the
resolution signals round over, and the at-fault iff holds there. -/
theorem forcedChallenge_fault_iff_witness :
    (handleQuestioning (GameState.mk [Player.mk "Human" [] false,
      Player.mk "Bot1" [] false, Player.mk "Bot2" [] true,
      Player.mk "Bot3" ["Sun", "Sun"] true] 2 (fun _ => 0)
      [[], [], ["Star"], []]) 3 2
      (forcedPlayedCards (GameState.mk [Player.mk "Human" [] false,
        Player.mk "Bot1" [] false, Player.mk "Bot2" [] true,
        Player.mk "Bot3" ["Sun", "Sun"] true] 2 (fun _ => 0)
        [[], [], ["Star"], []])) "Star" 0).2 = true ∧
    (faultIdx 3 2 (forcedPlayedCards (GameState.mk [Player.mk "Human" [] false,
        Player.mk "Bot1" [] false, Player.mk "Bot2" [] true,
        Player.mk "Bot3" ["Sun", "Sun"] true] 2 (fun _ => 0)
        [[], [], ["Star"], []])) "Star" = 2 ↔
      playIsCorrect (forcedPlayedCards (GameState.mk [Player.mk "Human" [] false,
        Player.mk "Bot1" [] false, Player.mk "Bot2" [] true,
        Player.mk "Bot3" ["Sun", "Sun"] true] 2 (fun _ => 0)
        [[], [], ["Star"], []])) "Star" = false) := by
  have h := forcedChallenge_fault_iff (GameState.mk [Player.mk "Human" [] false,
    Player.mk "Bot1" [] false, Player.mk "Bot2" [] true,
    Player.mk "Bot3" ["Sun", "Sun"] true] 2 (fun _ => 0)
    [[], [], ["Star"], []]) 3 "Star" 0 (by decide) (by decide)
  exact ⟨h.1, h.2.1⟩

theorem removeCardAt_natCast (h : List String) (d : Nat) (hd : d < h.length) :
    removeCardAt h (d : Int) = h.eraseIdx d := by
  unfold removeCardAt
  rw [if_pos ⟨Int.natCast_nonneg d, by exact_mod_cast hd⟩]
  simp

theorem getD_eraseIdx_of_lt (l : List String) (d i : Nat) (h : i < d) :
    (l.eraseIdx d).getD i "" = l.getD i "" := by
  simp [List.getD_eq_getElem?_getD, List.getElem?_eraseIdx_of_lt l d i h]

theorem perm_getD_cons_eraseIdx (h : List String) (d : Nat)
    (hd : d < h.length) :
    h.Perm (h.getD d "" :: h.eraseIdx d) := by
  rw [List.eraseIdx_eq_take_drop_succ]
  have hdecomp : h = h.take d ++ h.getD d "" :: h.drop (d + 1) := by
    conv_lhs => rw [← List.take_append_drop d h]
    congr 1
    rw [List.drop_eq_getElem_cons hd]
    congr 1
    simp [List.getD_eq_getElem?_getD, List.getElem?_eq_getElem hd]
  conv_lhs => rw [hdecomp]
  exact List.perm_middle

theorem foldl_remove_desc (L : List Nat) (h : List String) (acc : List String)
    (hsorted : L.Pairwise (fun a b => b < a))
    (hvalid : ∀ i ∈ L, i < h.length) :
    L.foldl (fun st (idx : Nat) => (removeCardAt st.1 (idx : Int),
        st.2 ++ [st.1.getD idx ""])) (h, acc) =
      (L.foldl (fun hh i => hh.eraseIdx i) h,
        acc ++ L.map (fun i => h.getD i "")) := by
  induction L generalizing h acc with
  | nil => simp
  | cons d rest ih =>
    have hd : d < h.length := hvalid d (List.mem_cons_self d rest)
    obtain ⟨hall, hrest⟩ := List.pairwise_cons.mp hsorted
    have hvalid2 : ∀ i ∈ rest, i < (h.eraseIdx d).length := by
      intro i hi
      have h1 : i < d := hall i hi
      have h2 : (h.eraseIdx d).length = h.length - 1 := by
        rw [List.length_eraseIdx]
        simp [hd]
      omega
    simp only [List.foldl_cons]
    rw [removeCardAt_natCast h d hd]
    rw [ih (h.eraseIdx d) (acc ++ [h.getD d ""]) hrest hvalid2]
    have hmapeq : rest.map (fun i => (h.eraseIdx d).getD i "") =
        rest.map (fun i => h.getD i "") :=
      List.map_congr_left (fun i hi => getD_eraseIdx_of_lt h d i (hall i hi))
    rw [hmapeq]
    simp

theorem perm_remove_desc (L : List Nat) (h : List String)
    (hsorted : L.Pairwise (fun a b => b < a))
    (hvalid : ∀ i ∈ L, i < h.length) :
    h.Perm (L.map (fun i => h.getD i "") ++
      L.foldl (fun hh i => hh.eraseIdx i) h) := by
  induction L generalizing h with
  | nil => simp
  | cons d rest ih =>
    have hd : d < h.length := hvalid d (List.mem_cons_self d rest)
    obtain ⟨hall, hrest⟩ := List.pairwise_cons.mp hsorted
    have hvalid2 : ∀ i ∈ rest, i < (h.eraseIdx d).length := by
      intro i hi
      have h1 : i < d := hall i hi
      have h2 : (h.eraseIdx d).length = h.length - 1 := by
        rw [List.length_eraseIdx]
        simp [hd]
      omega
    have hperm1 := perm_getD_cons_eraseIdx h d hd
    have hperm2 := ih (h.eraseIdx d) hrest hvalid2
    have hmapeq : rest.map (fun i => (h.eraseIdx d).getD i "") =
        rest.map (fun i => h.getD i "") :=
      List.map_congr_left (fun i hi => getD_eraseIdx_of_lt h d i (hall i hi))
    refine hperm1.trans ?_
    refine (hperm2.cons (h.getD d "")).trans ?_
    rw [hmapeq]
    simp only [List.map_cons, List.foldl_cons, List.cons_append]
    exact List.Perm.refl _

theorem insertionSort_desc_reverse (l : List Nat) :
    (l.insertionSort (fun a b => b ≤ a)).reverse =
      l.insertionSort (fun a b => a ≤ b) := by
  have hs1 : ((l.insertionSort (fun a b => b ≤ a)).reverse).Sorted
      (fun a b => a ≤ b) :=
    List.pairwise_reverse.mpr (List.sorted_insertionSort _ l)
  have hs2 : (l.insertionSort (fun a b => a ≤ b)).Sorted
      (fun a b => a ≤ b) := List.sorted_insertionSort _ l
  have hp : ((l.insertionSort (fun a b => b ≤ a)).reverse).Perm
      (l.insertionSort (fun a b => a ≤ b)) :=
    ((l.insertionSort (fun a b => b ≤ a)).reverse_perm.trans
      (List.perm_insertionSort _ l)).trans
      (List.perm_insertionSort (fun a b => a ≤ b) l).symm
  exact List.eq_of_perm_of_sorted hp hs1 hs2

/-- C8 (amended): with distinct in-range chosen indices, the human's
removal block removes exactly the chosen positions (the original hand is
a permutation of the played cards plus the remaining hand, and the hand
shrinks by the number of chosen cards), and the returned played sequence
lists the chosen cards in ASCENDING INDEX (hand) order — not in the
human's selection order. -/
theorem humanPlaySelected_spec (hand : List String) (chosen : List Nat)
    (hnodup : chosen.Nodup) (hvalid : ∀ i ∈ chosen, i < hand.length) :
    (humanPlaySelected hand chosen).2 =
      (chosen.insertionSort (fun a b => a ≤ b)).map
        (fun i => hand.getD i "") ∧
    hand.Perm ((humanPlaySelected hand chosen).2 ++
      (humanPlaySelected hand chosen).1) ∧
    (humanPlaySelected hand chosen).1.length + chosen.length =
      hand.length := by
  have hpermL : (chosen.insertionSort (fun a b => b ≤ a)).Perm chosen :=
    List.perm_insertionSort _ _
  have hsortedL : (chosen.insertionSort (fun a b => b ≤ a)).Pairwise
      (fun a b => b ≤ a) := List.sorted_insertionSort _ _
  have hnodupL : (chosen.insertionSort (fun a b => b ≤ a)).Nodup :=
    hpermL.nodup_iff.mpr hnodup
  have hstrict : (chosen.insertionSort (fun a b => b ≤ a)).Pairwise
      (fun a b => b < a) := by
    have hand2 := hsortedL.and hnodupL
    exact hand2.imp (fun hab => lt_of_le_of_ne hab.1 (Ne.symm hab.2))
  have hvalidL : ∀ i ∈ chosen.insertionSort (fun a b => b ≤ a),
      i < hand.length := fun i hi => hvalid i (hpermL.mem_iff.mp hi)
  have hfold := foldl_remove_desc (chosen.insertionSort (fun a b => b ≤ a))
    hand [] hstrict hvalidL
  have hplayed : (humanPlaySelected hand chosen).2 =
      (chosen.insertionSort (fun a b => a ≤ b)).map
        (fun i => hand.getD i "") := by
    unfold humanPlaySelected
    rw [hfold]
    dsimp only
    rw [List.nil_append, ← List.map_reverse, insertionSort_desc_reverse]
  refine ⟨hplayed, ?_, ?_⟩
  · have hperm := perm_remove_desc (chosen.insertionSort (fun a b => b ≤ a))
      hand hstrict hvalidL
    have hhand : (humanPlaySelected hand chosen).1 =
        (chosen.insertionSort (fun a b => b ≤ a)).foldl
          (fun hh i => hh.eraseIdx i) hand := by
      unfold humanPlaySelected
      rw [hfold]
    rw [hplayed, hhand, ← insertionSort_desc_reverse, List.map_reverse]
    refine hperm.trans ?_
    exact (((chosen.insertionSort (fun a b => b ≤ a)).map
      (fun i => hand.getD i "")).reverse_perm.symm).append_right _
  · have hperm := perm_remove_desc (chosen.insertionSort (fun a b => b ≤ a))
      hand hstrict hvalidL
    have hhand : (humanPlaySelected hand chosen).1 =
        (chosen.insertionSort (fun a b => b ≤ a)).foldl
          (fun hh i => hh.eraseIdx i) hand := by
      unfold humanPlaySelected
      rw [hfold]
    have hlen := hperm.length_eq
    rw [List.length_append, List.length_map] at hlen
    have hlenL : (chosen.insertionSort (fun a b => b ≤ a)).length =
        chosen.length := hpermL.length_eq
    rw [hhand]
    omega

/-- Witness for C8's amended theorem: hand ["Sun","Star","Moon"], chosen
indices [2, 0]; the played list is ["Sun","Moon"] (ascending index
order), the remaining hand has 1 card, and nothing is lost. -/
theorem humanPlaySelected_spec_witness :
    (humanPlaySelected ["Sun", "Star", "Moon"] [2, 0]).2 =
      (([2, 0] : List Nat).insertionSort (fun a b => a ≤ b)).map
        (fun i => (["Sun", "Star", "Moon"] : List String).getD i "") ∧
    (["Sun", "Star", "Moon"] : List String).Perm
      ((humanPlaySelected ["Sun", "Star", "Moon"] [2, 0]).2 ++
        (humanPlaySelected ["Sun", "Star", "Moon"] [2, 0]).1) ∧
    (humanPlaySelected ["Sun", "Star", "Moon"] [2, 0]).1.length +
      ([2, 0] : List Nat).length =
      (["Sun", "Star", "Moon"] : List String).length :=
  humanPlaySelected_spec ["Sun", "Star", "Moon"] [2, 0]
    (by decide) (by decide)

/-- Counterexample for C8 as stated: with hand ["Sun","Star"] and the
human selecting index 1 first and index 0 second, the selection-order
card list is ["Star","Sun"], but the code returns ["Sun","Star"]
(ascending index order) — the played sequence is NOT in selection
order. -/
theorem humanPlaySelected_counterexample :
    (humanPlaySelected ["Sun", "Star"] [1, 0]).2 = ["Sun", "Star"] ∧
    ([1, 0] : List Nat).map
      (fun i => (["Sun", "Star"] : List String).getD i "") =
      ["Star", "Sun"] ∧
    (humanPlaySelected ["Sun", "Star"] [1, 0]).2 ≠
      ([1, 0] : List Nat).map
        (fun i => (["Sun", "Star"] : List String).getD i "") := by
  refine ⟨by decide, by decide, by decide⟩

/-- C1: `playIsCorrect` returns true iff the play is non-empty and every
card equals the focus card or the wildcard "Magic"; in particular it is
false on the empty play for every focus card. -/
theorem playIsCorrect_iff (played : List String) (focus : String) :
    (playIsCorrect played focus = true ↔
      played ≠ [] ∧ ∀ c ∈ played, c = focus ∨ c = "Magic") ∧
    playIsCorrect [] focus = false := by
  constructor
  · constructor
    · intro h
      unfold playIsCorrect at h
      by_cases hne : played.isEmpty
      · rw [if_pos hne] at h; exact absurd h (by simp)
      · rw [if_neg hne] at h
        refine ⟨by simpa [List.isEmpty_iff] using hne, ?_⟩
        intro c hc
        have := (List.all_eq_true.mp h) c hc
        rcases Bool.or_eq_true_iff.mp this with h1 | h1
        · exact Or.inl (by simpa using h1)
        · exact Or.inr (by simpa using h1)
    · rintro ⟨hne, hall⟩
      unfold playIsCorrect
      rw [if_neg (by simpa [List.isEmpty_iff] using hne)]
      refine List.all_eq_true.mpr ?_
      intro c hc
      rcases hall c hc with h1 | h1 <;> simp [h1]
  · rfl

/-- C10: `removeCardAt` with an out-of-range index (negative or ≥ hand
size) leaves the hand unchanged and signals no error; with an in-range
index it removes exactly the card at that position, keeping every other
card in relative order (result = prefix before idx ++ suffix after idx). -/
theorem removeCardAt_spec (hand : List String) (idx : Int) :
    ((idx < 0 ∨ (hand.length : Int) ≤ idx) → removeCardAt hand idx = hand) ∧
    (0 ≤ idx → idx < (hand.length : Int) →
      removeCardAt hand idx =
        hand.take idx.toNat ++ hand.drop (idx.toNat + 1)) := by
  constructor
  · intro h
    unfold removeCardAt
    rw [if_neg]
    rcases h with h | h
    · intro hc; exact absurd hc.1 (by omega)
    · intro hc; exact absurd hc.2 (by omega)
  · intro h0 hlt
    unfold removeCardAt
    rw [if_pos ⟨h0, hlt⟩]
    exact List.eraseIdx_eq_take_drop_succ hand idx.toNat

/-- Witness for C10 at a concrete hand and index: removing index 1 from
["Sun","Star","Moon"] yields ["Sun","Moon"], and index 5 is a no-op. -/
theorem removeCardAt_spec_witness :
    removeCardAt ["Sun", "Star", "Moon"] 1 = ["Sun", "Moon"] ∧
    removeCardAt ["Sun", "Star", "Moon"] 5 = ["Sun", "Star", "Moon"] := by
  constructor
  · have h := (removeCardAt_spec ["Sun", "Star", "Moon"] 1).2
      (by decide) (by decide)
    simpa using h
  · have h := (removeCardAt_spec ["Sun", "Star", "Moon"] 5).1
      (by decide)
    simpa using h

end BluffBar
